import Mathlib

/-
Verification development for `scripts/create_precomputed_volume_v2.py` of the
CloudReg repository.  The script converts an ordered stack of 2D image slices
into a chunked multi-resolution precomputed volume: it batches the file list
(`chunks`, batch size `CHUNK_SIZE = 16`), loads each batch into a dense block
(`load_image_to_array`), derives coarser levels by 2x2 XY averaging
(`tinybrain.accelerated.average_pooling_2x2`), and writes every level's block
to the store for the batch's depth range (`upload_image_to_volume`).

External collaborators (the `tinybrain` averaging kernel and the CloudVolume
chunked store) are not part of the repository; where a definition embeds one
of them it is modelled from the specification and its doc comment says so.
Everything else is translated directly from the Python source.
-/

namespace CloudReg

/-- Batch size constant, line 18 of the source: `CHUNK_SIZE = 16`. -/
def CHUNK_SIZE : Nat := 16

/-- Embedding of the Python generator (source lines 20-22):
`for i in range(0, len(l), n): yield l[i:i+n]`.
`range(0, len(l), n)` enumerates the `(len(l) + n - 1) / n` start offsets
`0, n, 2n, ...` below `len(l)` (for `n > 0`; the script only calls it with
`n = CHUNK_SIZE = 16`), and the Python slice `l[i*n : i*n+n]` is
`(l.drop (n*i)).take n`. -/
def chunks {α : Type _} (l : List α) (n : Nat) : List (List α) :=
  (List.range ((l.length + n - 1) / n)).map (fun i => (l.drop (n * i)).take n)

/-- Triple of natural numbers used for sizes, factors, offsets and (integer
nanometer) resolutions along the x, y, z axes. -/
structure V3 where
  x : Nat
  y : Nat
  z : Nat
deriving DecidableEq

/-- Ceiling division, used for the per-level downsampled extents. -/
def ceilDiv (a b : Nat) : Nat := (a + b - 1) / b

/-- One scale (resolution level) of the precomputed volume's info schema:
its downsample factor, voxel resolution, extent, chunk shape and origin. -/
structure Scale where
  factor : V3
  resolution : V3
  size : V3
  chunkSize : V3
  voxelOffset : V3
deriving DecidableEq

/-- Modelled from the spec: the scale record CloudVolume builds for a given
downsample factor (source lines 26-40 call `CloudVolume.create_new_info` and
`vol.add_scale((2**i,2**i,1))`; the CloudVolume library is not part of the
repository).  Per the spec the level's extent is the ceiling of the base
extent divided by the factor in X/Y with Z unchanged (factor z is 1), the
resolution is the base voxel size scaled by the factor, and the chunk shape
`[CHUNK_SIZE*8, CHUNK_SIZE*8, CHUNK_SIZE]` and origin `[0,0,0]` are shared by
all levels. -/
def mkScale (voxel imgSize factor : V3) : Scale :=
  { factor := factor
    resolution := V3.mk (voxel.x * factor.x) (voxel.y * factor.y) (voxel.z * factor.z)
    size := V3.mk (ceilDiv imgSize.x factor.x) (ceilDiv imgSize.y factor.y)
      (ceilDiv imgSize.z factor.z)
    chunkSize := V3.mk (CHUNK_SIZE * 8) (CHUNK_SIZE * 8) CHUNK_SIZE
    voxelOffset := V3.mk 0 0 0 }

/-- Modelled from the spec: CloudVolume's `add_scale`, which registers a new
scale in the info schema, keyed by its resolution (replacing an existing
scale with the same key rather than duplicating it). -/
def addScale (info : List Scale) (s : Scale) : List Scale :=
  if info.any (fun t => decide (t.resolution = s.resolution)) then
    info.map (fun t => if t.resolution = s.resolution then s else t)
  else info ++ [s]

/-- Embedding of `create_cloud_volume` (source lines 25-42): the base scale
from `create_new_info` (factor `(1,1,1)`), then
`[vol.add_scale((2**i,2**i,1)) for i in range(num_hierarchy_levels)]`. -/
def create_cloud_volume (imgSize voxel : V3) (numLevels : Nat) : List Scale :=
  (List.range numLevels).foldl
    (fun info i => addScale info (mkScale voxel imgSize (V3.mk (2 ^ i) (2 ^ i) 1)))
    [mkScale voxel imgSize (V3.mk 1 1 1)]

/-- Default scale value, used only as the `getD` fallback in statements. -/
def defScale : Scale := mkScale (V3.mk 0 0 0) (V3.mk 0 0 0) (V3.mk 1 1 1)

/-- Shape of a decoded numpy array: the list of its axis extents. -/
abbrev ImgShape := List Nat

/-- Embedding of `np.squeeze` (source lines 49 and 57): removes every axis of
extent 1 from the shape. -/
def squeeze (shape : ImgShape) : ImgShape := shape.filter (fun d => d != 1)

/-- Numpy broadcasting rule for the assignment `target[...] = src` (used by
`out_array[:,:,z_idx] = image.T` on source line 59): the source array must
have no more axes than the target, and each of its axes, aligned from the
trailing end, must match the target axis or be 1. -/
def broadcastsTo (src target : ImgShape) : Bool :=
  decide (src.length ≤ target.length) &&
    (src.reverse.zip target.reverse).all (fun p => p.1 == p.2 || p.1 == 1)

/-- Shape-level embedding of one worker's `load_image_to_array` call (source
lines 55-61): `none` is an unreadable file (`Image.open` raises), otherwise
the squeezed, transposed decode (`np.squeeze(...).T`, which reverses the
squeezed shape) must broadcast into the destination slice
`out_array[:,:,z_idx]` of shape `(X, Y)`; a broadcast failure raises. -/
def sliceLoadOk (X Y : Nat) (decoded : Option ImgShape) : Bool :=
  match decoded with
  | none => false
  | some shp => broadcastsTo (squeeze shp).reverse [X, Y]

/-- Index of the first slice of a batch whose load raises (the exception that
joblib's `Parallel` re-raises on source line 78), starting the count at `k`. -/
def firstFailureAux (X Y : Nat) : Nat → List (Option ImgShape) → Option Nat
  | _, [] => none
  | k, d :: rest =>
    if sliceLoadOk X Y d then firstFailureAux X Y (k + 1) rest else some k

/-- Index of the first slice of a batch whose load raises, if any. -/
def firstFailure (X Y : Nat) (f : List (Option ImgShape)) : Option Nat :=
  firstFailureAux X Y 0 f

/-- Shape-level embedding of `load_image` (source lines 48-52): the decoded
array is squeezed, and `.T` reverses the shape when `transpose` is true. -/
def load_image (shp : ImgShape) (transpose : Bool) : ImgShape :=
  if transpose then (squeeze shp).reverse else squeeze shp

/-- Embedding of `get_image_dims` (source lines 96-102): loads the first file
(the empty list or an unreadable file raises), and unpacks
`x_size, y_size = img.shape`, which raises unless the squeezed, transposed
first image is exactly 2-dimensional; the Z extent is the file count. -/
def get_image_dims (files : List (Option ImgShape)) : Option V3 :=
  match files with
  | [] => none
  | none :: _ => none
  | some shp :: _ =>
    match load_image shp true with
    | [x, y] => some (V3.mk x y files.length)
    | _ => none

/-- Dense 3D block of samples with axis order (X, Y, Z): the in-memory
`tmp_chunk` of one batch, or one level of its pyramid.  Sample values are
naturals (the source's uint16 values; averaging of uint16 inputs in a wide
accumulator never overflows, so no modulus is involved). -/
structure Block where
  xs : Nat
  ys : Nat
  zs : Nat
  data : Nat → Nat → Nat → Nat

/-- Modelled from the spec: the sum of the samples of `b` in depth slice `z`
over the pooling window of width `w` and height `h` anchored at
`(2*x, 2*y)`. -/
def poolSum (b : Block) (x y z w h : Nat) : Nat :=
  ((List.range w).map
    (fun i => ((List.range h).map (fun j => b.data (2 * x + i) (2 * y + j) z)).sum)).sum

/-- Modelled from the spec: the averaged sample at `(x, y, z)` of the next
pyramid level: the mean (truncated integer division) of the samples that
exist in the 2x2 XY window anchored at `(2*x, 2*y)` of depth slice `z` — at
an odd trailing edge the window is clipped to the samples that exist, with
no wraparound and no zero padding. -/
def poolAvg (b : Block) (x y z : Nat) : Nat :=
  poolSum b x y z (min 2 (b.xs - 2 * x)) (min 2 (b.ys - 2 * y)) /
    (min 2 (b.xs - 2 * x) * min 2 (b.ys - 2 * y))

/-- Modelled from the spec: one 2x2 XY averaging step of the pyramid
generator; the derived extents are the ceilings of the X/Y extents halved and
the Z extent is untouched. -/
def downsampleOnce (b : Block) : Block :=
  Block.mk ((b.xs + 1) / 2) ((b.ys + 1) / 2) b.zs (poolAvg b)

/-- The block obtained from `b` by `n` successive averaging steps. -/
def downIter (b : Block) : Nat → Block
  | 0 => b
  | n + 1 => downIter (downsampleOnce b) n

/-- The first `n` derived pyramid levels of `b`, in order. -/
def pyramidLevels (b : Block) : Nat → List Block
  | 0 => []
  | n + 1 => downsampleOnce b :: pyramidLevels (downsampleOnce b) n

/-- Modelled from the spec: `tinybrain.accelerated.average_pooling_2x2` as
consumed on source lines 82-92 — the pyramid generator of §4.2, yielding the
`numMips - 1` derived blocks (entries `img_pyramid[0] .. img_pyramid[numMips-2]`,
written to mips `1 .. numMips-1`), each produced from the previous level by
2x2 XY averaging (the tinybrain library is not part of the repository). -/
def average_pooling_2x2 (b : Block) (numMips : Nat) : List Block :=
  pyramidLevels b (numMips - 1)

/-- One bulk write issued by `upload_image_to_volume`: the target resolution
level, the depth range `[zstart, zend)` at that level, whether the X/Y
addressing was the full-extent slice `[:, :]`, and the block written. -/
structure WriteEvent where
  level : Nat
  zstart : Nat
  zend : Nat
  fullXY : Bool
  block : Block

/-- The writes of one batch (source lines 83-92): with
`start = i * CHUNK_SIZE` and `end = start + len(f)`, first
`vol[:,:,start:end] = tmp_chunk` at level 0, then
`vols[j+1][:,:,start:end] = img_pyramid[j]` for `j in range(num_mips-1)`. -/
def batchWrites (numMips i flen : Nat) (blk : Block) : List WriteEvent :=
  WriteEvent.mk 0 (i * CHUNK_SIZE) (i * CHUNK_SIZE + flen) true blk ::
    (List.range (numMips - 1)).map
      (fun j => WriteEvent.mk (j + 1) (i * CHUNK_SIZE) (i * CHUNK_SIZE + flen) true
        ((average_pooling_2x2 blk numMips).getD j blk))

/-- The sequential batch loop of `upload_image_to_volume` (source lines
75-92) over the enumerated batches: each batch first loads its slices (a
raised load exception aborts the run, reported as (batch index, slice index),
and nothing further is written), then issues its writes at every level before
the next batch begins.  `loadBlock i` is the pixel content of batch `i`'s
`tmp_chunk` after a successful load (the decoded pixel values come from the
external image codec, so they are a parameter of the model). -/
def uploadGo (X Y numMips : Nat) (loadBlock : Nat → Block) :
    List (Nat × List (Option ImgShape)) → List WriteEvent × Option (Nat × Nat)
  | [] => ([], none)
  | (i, f) :: rest =>
    match firstFailure X Y f with
    | some k => ([], some (i, k))
    | none =>
      let r := uploadGo X Y numMips loadBlock rest
      (batchWrites numMips i f.length (loadBlock i) ++ r.1, r.2)

/-- Embedding of `upload_image_to_volume` (source lines 71-92): iterates
`enumerate(chunks(files, CHUNK_SIZE))`, returning the list of issued writes
and the abort, if any. -/
def upload_image_to_volume (X Y numMips : Nat) (loadBlock : Nat → Block)
    (files : List (Option ImgShape)) : List WriteEvent × Option (Nat × Nat) :=
  uploadGo X Y numMips loadBlock (chunks files CHUNK_SIZE).enum

/-- Value-level embedding of `load_image_to_array` (source lines 55-61) on an
in-bounds decode: the destination array is a function of the three indices,
and only the depth slice `z = zIdx` is reassigned, to the (optionally
transposed) image. -/
def load_image_to_array (image : Nat → Nat → Nat) (out : Nat → Nat → Nat → Nat)
    (zIdx : Nat) (transpose : Bool) : Nat → Nat → Nat → Nat :=
  fun x y z =>
    if z = zIdx then (if transpose then image y x else image x y) else out x y z

/-- Reasons the run driver aborts. -/
inductive RunError where
  | dimsError
  | decodeError (batch slice : Nat)
deriving DecidableEq

/-- Observable events of the whole run: committing the schema, or one bulk
write. -/
inductive Event where
  | commit (scales : List Scale)
  | write (ev : WriteEvent)

/-- Whether an event is the schema commit. -/
def Event.isCommit : Event → Bool
  | Event.commit _ => true
  | Event.write _ => false

/-- Embedding of `main` (source lines 117-133): read the image dimensions
from the first file (failure aborts before anything else happens), create and
commit the schema, then upload every batch. -/
def mainRun (voxel : V3) (numLevels : Nat) (loadBlock : Nat → Block)
    (files : List (Option ImgShape)) : List Event × Option RunError :=
  match get_image_dims files with
  | none => ([], some RunError.dimsError)
  | some dims =>
    let scales := create_cloud_volume dims voxel numLevels
    let up := upload_image_to_volume dims.x dims.y scales.length loadBlock files
    (Event.commit scales :: up.1.map Event.write,
      up.2.map (fun p => RunError.decodeError p.1 p.2))

/-- Modelled from the spec: the chunk-addressed store, a total map from
(level, x, y, z) to the stored sample (the CloudVolume backend is not part of
the repository; §6 specifies only its box-addressed read/write interface). -/
def Store := Nat → Nat → Nat → Nat → Nat

/-- Axis-aligned half-open box `[x0,x1) x [y0,y1) x [z0,z1)`. -/
structure Box where
  x0 : Nat
  x1 : Nat
  y0 : Nat
  y1 : Nat
  z0 : Nat
  z1 : Nat

/-- Modelled from the spec: `write_box` of §6 — overwrite exactly the samples
of `bx` at level `lvl` with `data`, indexed relative to the box origin. -/
def write_box (st : Store) (lvl : Nat) (bx : Box) (data : Nat → Nat → Nat → Nat) :
    Store :=
  fun l x y z =>
    if l = lvl ∧ bx.x0 ≤ x ∧ x < bx.x1 ∧ bx.y0 ≤ y ∧ y < bx.y1 ∧
        bx.z0 ≤ z ∧ z < bx.z1 then
      data (x - bx.x0) (y - bx.y0) (z - bx.z0)
    else st l x y z

/-- Modelled from the spec: `read_box` of §6 — read the samples of `bx` at
level `lvl`, indexed relative to the box origin. -/
def read_box (st : Store) (lvl : Nat) (bx : Box) : Nat → Nat → Nat → Nat :=
  fun i j k => st lvl (bx.x0 + i) (bx.y0 + j) (bx.z0 + k)

/-- The number of batches is the ceiling of the file count over the batch
size. -/
theorem chunks_length {α : Type _} (l : List α) (n : Nat) :
    (chunks l n).length = (l.length + n - 1) / n := by
  simp [chunks]

/-- Batch `i` is the contiguous run of `n` (or fewer, at the end) elements
starting at offset `n * i`. -/
theorem chunks_getD {α : Type _} (l : List α) (n i : Nat)
    (h : i < (chunks l n).length) :
    (chunks l n).getD i [] = (l.drop (n * i)).take n := by
  rw [List.getD_eq_getElem _ _ h]
  simp only [chunks, List.getElem_map]
  rw [List.getElem_range]

/-- Concatenating the first `k` batches yields the first `n * k` elements. -/
theorem chunks_prefix_flatten {α : Type _} (l : List α) (n : Nat) :
    ∀ k, (((List.range k).map (fun i => (l.drop (n * i)).take n)).flatten) =
      l.take (n * k)
  | 0 => by simp
  | k + 1 => by
    rw [List.range_succ, List.map_append, List.flatten_append,
      chunks_prefix_flatten l n k]
    simp only [List.map_cons, List.map_nil, List.flatten_cons, List.flatten_nil,
      List.append_nil, Nat.mul_succ]
    rw [List.take_add]

/-- The batches at batch size `CHUNK_SIZE` concatenate back to the original
list: exact coverage, in order, with no gaps or overlaps. -/
theorem chunks_flatten (l : List α) :
    (chunks l CHUNK_SIZE).flatten = l := by
  rw [chunks, chunks_prefix_flatten]
  refine List.take_of_length_le ?_
  simp only [CHUNK_SIZE]
  omega

/-- Every batch has at most `n` elements. -/
theorem chunks_mem_length_le {α : Type _} (l : List α) (n : Nat) :
    ∀ b ∈ chunks l n, b.length ≤ n := by
  intro b hb
  simp only [chunks, List.mem_map] at hb
  obtain ⟨i, _, rfl⟩ := hb
  simp only [List.length_take]
  exact Nat.min_le_left n _

/-- Every batch except possibly the last has exactly `CHUNK_SIZE`
elements. -/
theorem chunks_getD_length (l : List α) (i : Nat)
    (h : i + 1 < (chunks l CHUNK_SIZE).length) :
    ((chunks l CHUNK_SIZE).getD i []).length = CHUNK_SIZE := by
  rw [chunks_getD l CHUNK_SIZE i (by omega)]
  rw [chunks_length] at h
  simp only [List.length_take, List.length_drop, CHUNK_SIZE] at h ⊢
  omega

/-- C1: for every ordered file list and the batch size `B = CHUNK_SIZE = 16`,
`chunks` produces exactly `ceil(N/B)` batches; batch `i` is the contiguous
run of `B` elements starting at depth `B * i`, the batches concatenate in
increasing order back to exactly the input (every index covered once, no
gaps, no overlaps), every batch has length at most `B`, and every batch
except possibly the last has length exactly `B`. -/
theorem batching_correct {α : Type _} (l : List α) :
    (chunks l CHUNK_SIZE).length = (l.length + CHUNK_SIZE - 1) / CHUNK_SIZE ∧
    (chunks l CHUNK_SIZE).flatten = l ∧
    (∀ i, i < (chunks l CHUNK_SIZE).length →
      (chunks l CHUNK_SIZE).getD i [] = (l.drop (CHUNK_SIZE * i)).take CHUNK_SIZE) ∧
    (∀ b ∈ chunks l CHUNK_SIZE, b.length ≤ CHUNK_SIZE) ∧
    (∀ i, i + 1 < (chunks l CHUNK_SIZE).length →
      ((chunks l CHUNK_SIZE).getD i []).length = CHUNK_SIZE) :=
  ⟨chunks_length l CHUNK_SIZE, chunks_flatten l,
    fun i h => chunks_getD l CHUNK_SIZE i h,
    chunks_mem_length_le l CHUNK_SIZE,
    fun i h => chunks_getD_length l i h⟩

/-- Witness for `batching_correct` at a concrete 20-element list (two
batches). -/
theorem batching_correct_witness :
    (chunks (List.range 20) CHUNK_SIZE).getD 1 [] =
      ((List.range 20).drop (CHUNK_SIZE * 1)).take CHUNK_SIZE ∧
    ((chunks (List.range 20) CHUNK_SIZE).getD 0 []).length = CHUNK_SIZE :=
  ⟨(batching_correct (List.range 20)).2.2.1 1 (by decide),
    (batching_correct (List.range 20)).2.2.2.2 0 (by decide)⟩

/-- One averaging step leaves the Z extent untouched. -/
theorem downsampleOnce_zs (b : Block) : (downsampleOnce b).zs = b.zs := rfl

/-- Iterated averaging leaves the Z extent untouched. -/
theorem downIter_zs (n : Nat) : ∀ b : Block, (downIter b n).zs = b.zs := by
  induction n with
  | zero => intro b; rfl
  | succ n ih =>
    intro b
    show (downIter (downsampleOnce b) n).zs = b.zs
    rw [ih (downsampleOnce b)]
    rfl

/-- `pyramidLevels` yields exactly the requested number of blocks. -/
theorem pyramidLevels_length (n : Nat) : ∀ b : Block, (pyramidLevels b n).length = n := by
  induction n with
  | zero => intro b; rfl
  | succ n ih =>
    intro b
    show (downsampleOnce b :: pyramidLevels (downsampleOnce b) n).length = n + 1
    simp [ih (downsampleOnce b)]

/-- Entry `i` of `pyramidLevels` is the input averaged `i + 1` times. -/
theorem pyramidLevels_getD (n : Nat) :
    ∀ (b d : Block) (i : Nat), i < n →
      (pyramidLevels b n).getD i d = downIter b (i + 1) := by
  induction n with
  | zero => intro b d i h; omega
  | succ n ih =>
    intro b d i h
    cases i with
    | zero => rfl
    | succ i =>
      show (pyramidLevels (downsampleOnce b) n).getD i d = downIter b (i + 2)
      exact ih (downsampleOnce b) d i (by omega)

/-- Averaged sample in the interior (both window columns and rows exist). -/
theorem poolAvg_even (b : Block) (a c x y z : Nat) (hx : b.xs = 2 * a)
    (hy : b.ys = 2 * c) (hxa : x < a) (hyc : y < c) :
    poolAvg b x y z =
      (b.data (2 * x) (2 * y) z + b.data (2 * x + 1) (2 * y) z +
        b.data (2 * x) (2 * y + 1) z + b.data (2 * x + 1) (2 * y + 1) z) / 4 := by
  have hw : min 2 (b.xs - 2 * x) = 2 := by omega
  have hh : min 2 (b.ys - 2 * y) = 2 := by omega
  rw [poolAvg, hw, hh]
  have h2 : List.range 2 = [0, 1] := by decide
  simp only [poolSum, h2, List.map_cons, List.map_nil, List.sum_cons, List.sum_nil,
    Nat.add_zero]
  congr 1
  omega

/-- Averaged sample on an odd trailing X edge: only the single existing
column contributes. -/
theorem poolAvg_odd_edge (b : Block) (a c y z : Nat) (hx : b.xs = 2 * a + 1)
    (hy : b.ys = 2 * c) (hyc : y < c) :
    poolAvg b a y z = (b.data (2 * a) (2 * y) z + b.data (2 * a) (2 * y + 1) z) / 2 := by
  have hw : min 2 (b.xs - 2 * a) = 1 := by omega
  have hh : min 2 (b.ys - 2 * y) = 2 := by omega
  rw [poolAvg, hw, hh]
  have h1 : List.range 1 = [0] := by decide
  have h2 : List.range 2 = [0, 1] := by decide
  simp only [poolSum, h1, h2, List.map_cons, List.map_nil, List.sum_cons, List.sum_nil,
    Nat.add_zero]

/-- C2: for a full-resolution block of even X/Y extents `(2a, 2c, zs)`, the
level-1 block produced by the pyramid step equals, independently for each
depth slice, the elementwise mean (truncated integer division, the stated
rounding rule) of each non-overlapping 2x2 XY neighborhood of that slice;
and for a target level count `m` the pyramid step yields `m - 1` derived
blocks, each obtained from the previous one by the 2x2 XY averaging step,
with the Z dimension untouched at every level. -/
theorem pyramid_generator_correct (blk : Block) (a c m : Nat)
    (hx : blk.xs = 2 * a) (hy : blk.ys = 2 * c) :
    (average_pooling_2x2 blk m).length = m - 1 ∧
    (∀ i, i < m - 1 → (average_pooling_2x2 blk m).getD i blk = downIter blk (i + 1)) ∧
    (∀ i, (downIter blk i).zs = blk.zs) ∧
    (downsampleOnce blk).xs = a ∧ (downsampleOnce blk).ys = c ∧
    (downsampleOnce blk).zs = blk.zs ∧
    (∀ x y z, x < a → y < c →
      (downsampleOnce blk).data x y z =
        (blk.data (2 * x) (2 * y) z + blk.data (2 * x + 1) (2 * y) z +
          blk.data (2 * x) (2 * y + 1) z + blk.data (2 * x + 1) (2 * y + 1) z) / 4) := by
  refine ⟨pyramidLevels_length (m - 1) blk, ?_, ?_, ?_, ?_, rfl, ?_⟩
  · intro i h
    exact pyramidLevels_getD (m - 1) blk blk i h
  · intro i
    exact downIter_zs i blk
  · show (blk.xs + 1) / 2 = a
    omega
  · show (blk.ys + 1) / 2 = c
    omega
  · intro x y z hxa hyc
    exact poolAvg_even blk a c x y z hx hy hxa hyc

/-- Witness for `pyramid_generator_correct` at a concrete 4x4x2 block. -/
theorem pyramid_generator_correct_witness :
    (downsampleOnce (Block.mk 4 4 2 (fun x y z => x + 10 * y + 100 * z))).data 1 1 1 =
      ((Block.mk 4 4 2 (fun x y z => x + 10 * y + 100 * z)).data 2 2 1 +
        (Block.mk 4 4 2 (fun x y z => x + 10 * y + 100 * z)).data 3 2 1 +
        (Block.mk 4 4 2 (fun x y z => x + 10 * y + 100 * z)).data 2 3 1 +
        (Block.mk 4 4 2 (fun x y z => x + 10 * y + 100 * z)).data 3 3 1) / 4 :=
  (pyramid_generator_correct (Block.mk 4 4 2 (fun x y z => x + 10 * y + 100 * z)) 2 2 3
    rfl rfl).2.2.2.2.2.2 1 1 1 (by decide) (by decide)

/-- C4: for a block of odd X extent `(2a+1, 2c, zs)`, the derived level-1
extents are `(a+1, c, zs)` — the ceiling of each XY extent halved, Z
untouched — and the last X column of the derived block is computed from the
single contributing input column only (its two-sample Y average), with no
wraparound neighbor and no zero padding. -/
theorem pyramid_odd_extent_correct (blk : Block) (a c : Nat)
    (hx : blk.xs = 2 * a + 1) (hy : blk.ys = 2 * c) :
    (downsampleOnce blk).xs = a + 1 ∧ (downsampleOnce blk).ys = c ∧
    (downsampleOnce blk).zs = blk.zs ∧
    (∀ y z, y < c →
      (downsampleOnce blk).data a y z =
        (blk.data (2 * a) (2 * y) z + blk.data (2 * a) (2 * y + 1) z) / 2) := by
  refine ⟨?_, ?_, rfl, ?_⟩
  · show (blk.xs + 1) / 2 = a + 1
    omega
  · show (blk.ys + 1) / 2 = c
    omega
  · intro y z hyc
    exact poolAvg_odd_edge blk a c y z hx hy hyc

/-- Witness for `pyramid_odd_extent_correct` at a concrete 3x2x1 block. -/
theorem pyramid_odd_extent_correct_witness :
    (downsampleOnce (Block.mk 3 2 1 (fun x y _ => 5 * x + y))).data 1 0 0 =
      ((Block.mk 3 2 1 (fun x y _ => 5 * x + y)).data 2 0 0 +
        (Block.mk 3 2 1 (fun x y _ => 5 * x + y)).data 2 1 0) / 2 :=
  (pyramid_odd_extent_correct (Block.mk 3 2 1 (fun x y _ => 5 * x + y)) 1 1
    rfl rfl).2.2.2 0 0 (by decide)

/-- A batch's slice loading succeeds as a whole iff every slice loads. -/
theorem firstFailureAux_eq_none (X Y : Nat) :
    ∀ (f : List (Option ImgShape)) (k : Nat),
      firstFailureAux X Y k f = none ↔ ∀ d ∈ f, sliceLoadOk X Y d = true := by
  intro f
  induction f with
  | nil => intro k; simp [firstFailureAux]
  | cons d rest ih =>
    intro k
    by_cases h : sliceLoadOk X Y d
    · simp [firstFailureAux, h, ih (k + 1)]
    · simp [firstFailureAux, h]

/-- `firstFailure` is `none` iff every slice of the batch loads. -/
theorem firstFailure_eq_none (X Y : Nat) (f : List (Option ImgShape)) :
    firstFailure X Y f = none ↔ ∀ d ∈ f, sliceLoadOk X Y d = true :=
  firstFailureAux_eq_none X Y f 0

/-- The writes of one batch are exactly one write per level
`0 .. numMips - 1`, in increasing level order, all with the identical depth
range `[i*CHUNK_SIZE, i*CHUNK_SIZE + flen)`, full X/Y addressing, and with
level `lvl` receiving the `lvl`-times-averaged block. -/
theorem batchWrites_eq (numMips i flen : Nat) (blk : Block) (hm : 1 ≤ numMips) :
    batchWrites numMips i flen blk =
      (List.range numMips).map (fun lvl =>
        WriteEvent.mk lvl (i * CHUNK_SIZE) (i * CHUNK_SIZE + flen) true
          (downIter blk lvl)) := by
  obtain ⟨m, rfl⟩ : ∃ m, numMips = m + 1 := ⟨numMips - 1, by omega⟩
  rw [List.range_succ_eq_map, batchWrites]
  simp only [List.map_cons, List.map_map]
  congr 1
  refine List.map_congr_left ?_
  intro j hj
  have hj2 : j < m := List.mem_range.mp hj
  simp only [Function.comp]
  rw [show average_pooling_2x2 blk (m + 1) = pyramidLevels blk m from rfl,
    pyramidLevels_getD m blk blk j hj2]

/-- When every batch of the (enumerated) batch list loads successfully, the
upload loop issues each batch's writes in order and does not abort. -/
theorem uploadGo_ok (X Y numMips : Nat) (lb : Nat → Block) :
    ∀ (B : List (List (Option ImgShape))) (c : Nat),
      (∀ f ∈ B, firstFailure X Y f = none) →
      uploadGo X Y numMips lb (List.enumFrom c B) =
        (((List.enumFrom c B).map
            (fun p => batchWrites numMips p.1 p.2.length (lb p.1))).flatten,
          none) := by
  intro B
  induction B with
  | nil => intro c h; rfl
  | cons f rest ih =>
    intro c h
    have hf : firstFailure X Y f = none := h f (by simp)
    have hrec := ih (c + 1) (fun g hg => h g (List.mem_cons_of_mem f hg))
    show uploadGo X Y numMips lb ((c, f) :: List.enumFrom (c + 1) rest) = _
    rw [uploadGo, hf, hrec]
    rfl

/-- When every batch before batch `i` loads successfully and batch `i` has a
failing slice (first at offset `k`), the upload loop issues exactly the
writes of the batches before `i` and aborts reporting batch `i`, slice `k`:
nothing at all is written for batch `i` or any later batch. -/
theorem uploadGo_fail (X Y numMips : Nat) (lb : Nat → Block) :
    ∀ (B : List (List (Option ImgShape))) (c i k : Nat),
      i < B.length →
      firstFailure X Y (B.getD i []) = some k →
      (∀ j, j < i → firstFailure X Y (B.getD j []) = none) →
      uploadGo X Y numMips lb (List.enumFrom c B) =
        (((List.range i).map
            (fun j => batchWrites numMips (c + j) ((B.getD j []).length)
              (lb (c + j)))).flatten,
          some (c + i, k)) := by
  intro B
  induction B with
  | nil =>
    intro c i k hi _ _
    simp at hi
  | cons f rest ih =>
    intro c i k hi hfail hprev
    cases i with
    | zero =>
      have hf : firstFailure X Y f = some k := hfail
      show uploadGo X Y numMips lb ((c, f) :: List.enumFrom (c + 1) rest) = _
      rw [uploadGo, hf]
      simp
    | succ i =>
      have hf : firstFailure X Y f = none := by
        have := hprev 0 (by omega)
        simpa using this
      have hrec := ih (c + 1) i k (by simpa using hi)
        (by simpa using hfail)
        (fun j hj => by
          have := hprev (j + 1) (by omega)
          simpa using this)
      show uploadGo X Y numMips lb ((c, f) :: List.enumFrom (c + 1) rest) = _
      rw [uploadGo, hf, hrec]
      rw [List.range_succ_eq_map, List.map_cons, List.map_map, List.flatten_cons]
      have harg : c + 0 = c := rfl
      refine congrArg₂ Prod.mk ?_ (by rw [show c + 1 + i = c + (i + 1) from by omega])
      refine congrArg₂ HAppend.hAppend rfl ?_
      refine congrArg List.flatten (List.map_congr_left ?_)
      intro j hj
      simp only [Function.comp, List.getD_cons_succ]
      rw [show c + 1 + j = c + (j + 1) from by omega]

/-- Every write of one batch targets the identical depth range
`[i*CHUNK_SIZE, i*CHUNK_SIZE + flen)`. -/
theorem batchWrites_zrange (numMips i flen : Nat) (blk : Block) :
    ∀ ev ∈ batchWrites numMips i flen blk,
      ev.zstart = i * CHUNK_SIZE ∧ ev.zend = i * CHUNK_SIZE + flen := by
  intro ev hev
  simp only [batchWrites, List.mem_cons, List.mem_map] at hev
  rcases hev with rfl | ⟨j, _, rfl⟩ <;> exact ⟨rfl, rfl⟩

/-- C3: when every slice loads, the writer emits — for each batch `i` of
length `len_i`, in batch order — exactly one bulk write per declared level
`0 .. numMips-1`, in increasing level order, all addressed to the
identically-scaled (identity-mapped) depth range
`[i*CHUNK_SIZE, i*CHUNK_SIZE + len_i)` with full X/Y addressing, level `lvl`
receiving the `lvl`-times-downsampled block; all of batch `i`'s level writes
appear before any write of batch `i+1`, and the run does not abort. -/
theorem level_writer_correct (X Y numMips : Nat) (hm : 1 ≤ numMips)
    (loadBlock : Nat → Block) (files : List (Option ImgShape))
    (hok : ∀ d ∈ files, sliceLoadOk X Y d = true) :
    (upload_image_to_volume X Y numMips loadBlock files).2 = none ∧
    (upload_image_to_volume X Y numMips loadBlock files).1 =
      ((chunks files CHUNK_SIZE).enum.map (fun p =>
        (List.range numMips).map (fun lvl =>
          WriteEvent.mk lvl (p.1 * CHUNK_SIZE) (p.1 * CHUNK_SIZE + p.2.length) true
            (downIter (loadBlock p.1) lvl)))).flatten := by
  have hall : ∀ f ∈ chunks files CHUNK_SIZE, firstFailure X Y f = none := by
    intro f hf
    rw [firstFailure_eq_none]
    intro d hd
    refine hok d ?_
    rw [← chunks_flatten files]
    exact List.mem_flatten.mpr ⟨f, hf, hd⟩
  have h := uploadGo_ok X Y numMips loadBlock (chunks files CHUNK_SIZE) 0 hall
  have henum : (chunks files CHUNK_SIZE).enum =
      List.enumFrom 0 (chunks files CHUNK_SIZE) := rfl
  constructor
  · rw [upload_image_to_volume, henum, h]
  · rw [upload_image_to_volume, henum, h]
    refine congrArg List.flatten (List.map_congr_left ?_)
    intro p _
    exact batchWrites_eq numMips p.1 p.2.length (loadBlock p.1) hm

/-- Witness for `level_writer_correct`: one 1-slice batch, two levels. -/
theorem level_writer_correct_witness :
    (upload_image_to_volume 2 2 2 (fun _ => Block.mk 2 2 1 (fun _ _ _ => 7))
        [some [2, 2]]).2 = none ∧
    (upload_image_to_volume 2 2 2 (fun _ => Block.mk 2 2 1 (fun _ _ _ => 7))
        [some [2, 2]]).1 =
      ((chunks [some [2, 2]] CHUNK_SIZE).enum.map (fun p =>
        (List.range 2).map (fun lvl =>
          WriteEvent.mk lvl (p.1 * CHUNK_SIZE) (p.1 * CHUNK_SIZE + p.2.length) true
            (downIter (Block.mk 2 2 1 (fun _ _ _ => 7)) lvl)))).flatten :=
  level_writer_correct 2 2 2 (by decide) (fun _ => Block.mk 2 2 1 (fun _ _ _ => 7))
    [some [2, 2]] (by decide)

/-- C5 counterexample: the claim states that a decoded shape disagreeing with
the declared `(X, Y)` extent aborts the run with no writes for that batch.
A file decoding to shape `(1, 1)` when `(32, 32)` was declared disagrees
with the declared extent, but `np.squeeze` turns it into a 0-dimensional
array which numpy assignment broadcasting silently accepts: the load raises
no error, the run does not abort, and the batch's writes at both levels are
issued. -/
theorem decode_mismatch_not_aborted :
    [1, 1] ≠ [32, 32] ∧
    sliceLoadOk 32 32 (some [1, 1]) = true ∧
    (upload_image_to_volume 32 32 2 (fun _ => Block.mk 32 32 1 (fun _ _ _ => 0))
        [some [1, 1]]).2 = none ∧
    ((upload_image_to_volume 32 32 2 (fun _ => Block.mk 32 32 1 (fun _ _ _ => 0))
        [some [1, 1]]).1.map WriteEvent.level) = [0, 1] := by
  refine ⟨by decide, by decide, rfl, rfl⟩

/-- C5 (amended): for every batch, if loading any slice file of the batch
raises — the file is unreadable, or its decoded squeezed shape cannot be
broadcast into the declared `(X, Y)` slice extent (numpy-broadcastable
mismatches, such as a shape squeezing to a scalar or to a matching trailing
vector, are silently accepted instead) — then the whole run aborts with an
error identifying the batch and slice, and no write is issued to the store
at any level for that batch or any later batch (no partial-batch recovery);
only the writes of earlier, fully-loaded batches exist. -/
theorem upload_abort_on_load_failure (X Y numMips : Nat) (loadBlock : Nat → Block)
    (files : List (Option ImgShape)) (i k : Nat)
    (hi : i < (chunks files CHUNK_SIZE).length)
    (hfail : firstFailure X Y ((chunks files CHUNK_SIZE).getD i []) = some k)
    (hprev : ∀ j, j < i → firstFailure X Y ((chunks files CHUNK_SIZE).getD j []) = none) :
    (upload_image_to_volume X Y numMips loadBlock files).2 = some (i, k) ∧
    ∀ ev ∈ (upload_image_to_volume X Y numMips loadBlock files).1,
      ev.zend ≤ i * CHUNK_SIZE := by
  have h := uploadGo_fail X Y numMips loadBlock (chunks files CHUNK_SIZE) 0 i k hi
    hfail hprev
  have henum : (chunks files CHUNK_SIZE).enum =
      List.enumFrom 0 (chunks files CHUNK_SIZE) := rfl
  constructor
  · rw [upload_image_to_volume, henum, h]
    simp
  · intro ev hev
    rw [upload_image_to_volume, henum, h] at hev
    simp only [List.mem_flatten, List.mem_map, List.mem_range] at hev
    obtain ⟨L, ⟨j, hj, rfl⟩, hevL⟩ := hev
    have hz := (batchWrites_zrange numMips (0 + j)
      ((chunks files CHUNK_SIZE).getD j []).length (loadBlock (0 + j)) ev hevL).2
    have hlen : ((chunks files CHUNK_SIZE).getD j []).length ≤ CHUNK_SIZE := by
      rw [chunks_getD files CHUNK_SIZE j (by omega)]
      simp only [List.length_take]
      exact Nat.min_le_left _ _
    rw [hz]
    simp only [CHUNK_SIZE] at hlen ⊢
    omega

/-- Witness for `upload_abort_on_load_failure`: the spec's failure scenario,
a slice decoding to `(31, 32)` when `(32, 32)` was declared. -/
theorem upload_abort_on_load_failure_witness :
    (upload_image_to_volume 32 32 2 (fun _ => Block.mk 32 32 1 (fun _ _ _ => 0))
        [some [31, 32]]).2 = some (0, 0) ∧
    ∀ ev ∈ (upload_image_to_volume 32 32 2 (fun _ => Block.mk 32 32 1 (fun _ _ _ => 0))
        [some [31, 32]]).1, ev.zend ≤ 0 * CHUNK_SIZE :=
  upload_abort_on_load_failure 32 32 2 (fun _ => Block.mk 32 32 1 (fun _ _ _ => 0))
    [some [31, 32]] 0 0 (by decide) (by decide) (fun j hj => absurd hj (by omega))

/-- Ceiling division by one is the identity. -/
theorem ceilDiv_one (a : Nat) : ceilDiv a 1 = a := by
  unfold ceilDiv
  omega

/-- `addScale` preserves any property shared by the registered scale and the
existing schema. -/
theorem addScale_pred (P : Scale → Prop) (info : List Scale) (s : Scale)
    (hinfo : ∀ t ∈ info, P t) (hs : P s) : ∀ t ∈ addScale info s, P t := by
  intro t ht
  unfold addScale at ht
  by_cases h : info.any (fun t => decide (t.resolution = s.resolution))
  · rw [if_pos h] at ht
    simp only [List.mem_map] at ht
    obtain ⟨u, hu, rfl⟩ := ht
    by_cases h2 : u.resolution = s.resolution
    · rw [if_pos h2]
      exact hs
    · rw [if_neg h2]
      exact hinfo u hu
  · rw [if_neg h] at ht
    rcases List.mem_append.mp ht with h1 | h1
    · exact hinfo t h1
    · simp only [List.mem_singleton] at h1
      subst h1
      exact hs

/-- Every scale of the created schema carries the shared base chunk shape
`(CHUNK_SIZE*8, CHUNK_SIZE*8, CHUNK_SIZE)` and the shared origin
`(0, 0, 0)`. -/
theorem create_cloud_volume_shared (imgSize voxel : V3) (numLevels : Nat) :
    ∀ s ∈ create_cloud_volume imgSize voxel numLevels,
      s.chunkSize = V3.mk (CHUNK_SIZE * 8) (CHUNK_SIZE * 8) CHUNK_SIZE ∧
      s.voxelOffset = V3.mk 0 0 0 := by
  have key : ∀ (L : List Nat) (init : List Scale),
      (∀ t ∈ init, t.chunkSize = V3.mk (CHUNK_SIZE * 8) (CHUNK_SIZE * 8) CHUNK_SIZE ∧
        t.voxelOffset = V3.mk 0 0 0) →
      ∀ s ∈ L.foldl
        (fun info i => addScale info (mkScale voxel imgSize (V3.mk (2 ^ i) (2 ^ i) 1)))
        init,
        s.chunkSize = V3.mk (CHUNK_SIZE * 8) (CHUNK_SIZE * 8) CHUNK_SIZE ∧
        s.voxelOffset = V3.mk 0 0 0 := by
    intro L
    induction L with
    | nil => intro init hinit; exact hinit
    | cons i L ih =>
      intro init hinit
      rw [List.foldl_cons]
      exact ih _ (addScale_pred _ init _ hinit ⟨rfl, rfl⟩)
  exact key (List.range numLevels) [mkScale voxel imgSize (V3.mk 1 1 1)]
    (by intro t ht; simp only [List.mem_singleton] at ht; subst ht; exact ⟨rfl, rfl⟩)

/-- With a positive base voxel size, the scales' resolution keys are pairwise
distinct, so the schema created for `numLevels ≥ 1` levels is exactly one
scale per level `i` with factor `(2^i, 2^i, 1)`, in level order. -/
theorem create_scales_eq (imgSize voxel : V3) (numLevels : Nat) (hn : 1 ≤ numLevels)
    (hx : 0 < voxel.x) :
    create_cloud_volume imgSize voxel numLevels =
      (List.range numLevels).map
        (fun i => mkScale voxel imgSize (V3.mk (2 ^ i) (2 ^ i) 1)) := by
  unfold create_cloud_volume
  induction numLevels with
  | zero => omega
  | succ k ih =>
    rcases Nat.eq_zero_or_pos k with h0 | hpos
    · subst h0
      have hself : (mkScale voxel imgSize (V3.mk (2 ^ 0) (2 ^ 0) 1)) =
          mkScale voxel imgSize (V3.mk 1 1 1) := rfl
      show addScale [mkScale voxel imgSize (V3.mk 1 1 1)]
          (mkScale voxel imgSize (V3.mk (2 ^ 0) (2 ^ 0) 1)) = _
      rw [hself, addScale, if_pos (by simp)]
      rw [show List.range 1 = [0] from rfl]
      simp only [List.map_cons, List.map_nil]
      rw [if_pos trivial, hself]
    · rw [List.range_succ, List.foldl_append, List.map_append, ih hpos]
      rw [List.foldl_cons, List.foldl_nil, addScale, if_neg ?_]
      · rfl
      · rw [Bool.not_eq_true, List.any_eq_false]
        intro t ht
        simp only [List.mem_map] at ht
        obtain ⟨i, hi, rfl⟩ := ht
        have hik : i < k := List.mem_range.mp hi
        have hpow : (2 : Nat) ^ i < 2 ^ k := Nat.pow_lt_pow_right (by omega) hik
        have hne : voxel.x * 2 ^ i ≠ voxel.x * 2 ^ k :=
          Nat.ne_of_lt (mul_lt_mul_of_pos_left hpow hx)
        simp only [mkScale, decide_eq_true_iff]
        intro hc
        exact hne (congrArg V3.x hc)

/-- C6: schema creation persists, exactly once and before any data is
written, a schema with one scale per level `i ∈ [0, numLevels)` whose
downsample factor is `(2^i, 2^i, 1)` — powers of two in X/Y, unchanged in
Z — whose extent is the resolution-scaled `(ceil(X/2^i), ceil(Y/2^i), Z)`,
and whose chunk shape `(CHUNK_SIZE*8, CHUNK_SIZE*8, CHUNK_SIZE) =
(128, 128, 16)` and origin (hence chunk depth along Z) are shared by all
levels; in the run trace the single schema commit precedes every write. -/
theorem schema_creation_correct (imgSize voxel : V3) (numLevels : Nat)
    (hn : 1 ≤ numLevels) (hx : 0 < voxel.x) :
    (create_cloud_volume imgSize voxel numLevels).length = numLevels ∧
    (∀ i, i < numLevels →
      (create_cloud_volume imgSize voxel numLevels).getD i defScale =
        Scale.mk (V3.mk (2 ^ i) (2 ^ i) 1)
          (V3.mk (voxel.x * 2 ^ i) (voxel.y * 2 ^ i) (voxel.z * 1))
          (V3.mk (ceilDiv imgSize.x (2 ^ i)) (ceilDiv imgSize.y (2 ^ i)) imgSize.z)
          (V3.mk (CHUNK_SIZE * 8) (CHUNK_SIZE * 8) CHUNK_SIZE)
          (V3.mk 0 0 0)) ∧
    (∀ (loadBlock : Nat → Block) (files : List (Option ImgShape)) (dims : V3),
      get_image_dims files = some dims →
      (mainRun voxel numLevels loadBlock files).1 =
        Event.commit (create_cloud_volume dims voxel numLevels) ::
          (upload_image_to_volume dims.x dims.y
            (create_cloud_volume dims voxel numLevels).length loadBlock files).1.map
            Event.write ∧
      ((mainRun voxel numLevels loadBlock files).1.filter Event.isCommit).length = 1) := by
  refine ⟨?_, ?_, ?_⟩
  · rw [create_scales_eq imgSize voxel numLevels hn hx]
    simp
  · intro i hi
    rw [create_scales_eq imgSize voxel numLevels hn hx]
    rw [List.getD_eq_getElem _ _ (by simp [hi])]
    simp only [List.getElem_map, List.getElem_range]
    simp [mkScale, ceilDiv_one]
  · intro loadBlock files dims hdims
    constructor
    · simp only [mainRun, hdims]
    · simp only [mainRun, hdims, List.filter_cons, Event.isCommit,
        List.filter_map]
      simp [Function.comp, Event.isCommit]

/-- Witness for `schema_creation_correct` at a concrete geometry. -/
theorem schema_creation_correct_witness :
    (create_cloud_volume (V3.mk 33 32 4) (V3.mk 100 100 10) 2).getD 1 defScale =
      Scale.mk (V3.mk 2 2 1) (V3.mk 200 200 10) (V3.mk 17 16 4)
        (V3.mk 128 128 16) (V3.mk 0 0 0) :=
  (schema_creation_correct (V3.mk 33 32 4) (V3.mk 100 100 10) 2
    (by decide) (by decide)).2.1 1 (by decide)

/-- C7: for every level, box and data: reading the box back after writing it
returns the written data bit-identically; writing the identical box and data
twice leaves the store identical to a single write (idempotent under retry);
and every sample outside the box — other levels included — is untouched
(adjacent chunks are not corrupted). -/
theorem store_write_correct (st : Store) (lvl : Nat) (bx : Box)
    (data : Nat → Nat → Nat → Nat) :
    (∀ i j k, i < bx.x1 - bx.x0 → j < bx.y1 - bx.y0 → k < bx.z1 - bx.z0 →
      read_box (write_box st lvl bx data) lvl bx i j k = data i j k) ∧
    write_box (write_box st lvl bx data) lvl bx data = write_box st lvl bx data ∧
    (∀ l x y z,
      l ≠ lvl ∨ x < bx.x0 ∨ bx.x1 ≤ x ∨ y < bx.y0 ∨ bx.y1 ≤ y ∨
        z < bx.z0 ∨ bx.z1 ≤ z →
      write_box st lvl bx data l x y z = st l x y z) := by
  refine ⟨?_, ?_, ?_⟩
  · intro i j k hi hj hk
    show write_box st lvl bx data lvl (bx.x0 + i) (bx.y0 + j) (bx.z0 + k) = data i j k
    rw [write_box, if_pos (by omega)]
    congr 1 <;> omega
  · funext l x y z
    simp only [write_box]
    by_cases h : l = lvl ∧ bx.x0 ≤ x ∧ x < bx.x1 ∧ bx.y0 ≤ y ∧ y < bx.y1 ∧
        bx.z0 ≤ z ∧ z < bx.z1
    · simp [h]
    · simp [h]
  · intro l x y z h
    rw [write_box, if_neg (by omega)]

/-- Witness for `store_write_correct`: round trip of one sample of a
concrete 2x2x2 box written over the all-zero store. -/
theorem store_write_correct_witness :
    read_box (write_box (fun _ _ _ _ => 0) 0 (Box.mk 0 2 0 2 0 2)
        (fun i j k => i + 10 * j + 100 * k)) 0 (Box.mk 0 2 0 2 0 2) 1 1 1 =
      (fun i j k => i + 10 * j + 100 * k) 1 1 1 :=
  (store_write_correct (fun _ _ _ _ => 0) 0 (Box.mk 0 2 0 2 0 2)
      (fun i j k => i + 10 * j + 100 * k)).1 1 1 1 (by decide) (by decide) (by decide)

/-- C8: `load_image_to_array` modifies only depth slice `zIdx` of the
destination (every other depth slice is returned unchanged), sets that slice
to the (optionally transposed) image, and two loads at distinct depth
indices commute — their written regions are strictly non-overlapping, so the
`batch_len` concurrent workers of a batch, which receive pairwise distinct
`z_idx` values from `enumerate`, write to disjoint regions of the shared
block. -/
theorem load_image_to_array_frame (image : Nat → Nat → Nat)
    (out : Nat → Nat → Nat → Nat) (zIdx : Nat) (t : Bool) :
    (∀ x y z, z ≠ zIdx → load_image_to_array image out zIdx t x y z = out x y z) ∧
    (∀ x y, load_image_to_array image out zIdx t x y zIdx =
      if t then image y x else image x y) ∧
    (∀ (image2 : Nat → Nat → Nat) (z2 : Nat), z2 ≠ zIdx →
      load_image_to_array image2 (load_image_to_array image out zIdx t) z2 t =
        load_image_to_array image (load_image_to_array image2 out z2 t) zIdx t) ∧
    (∀ (f : List (Option ImgShape)),
      f.enum.map Prod.fst = List.range f.length ∧ (f.enum.map Prod.fst).Nodup) := by
  refine ⟨?_, ?_, ?_, ?_⟩
  · intro x y z hz
    simp [load_image_to_array, hz]
  · intro x y
    simp [load_image_to_array]
  · intro image2 z2 hz
    funext x y z
    simp only [load_image_to_array]
    by_cases h1 : z = z2 <;> by_cases h2 : z = zIdx
    · exfalso
      omega
    · simp [h1, h2, hz, Ne.symm hz]
    · simp [h1, h2, hz, Ne.symm hz]
    · simp [h1, h2, hz, Ne.symm hz]
  · intro f
    refine ⟨List.enum_map_fst f, ?_⟩
    rw [List.enum_map_fst f]
    exact List.nodup_range f.length

/-- Witness for `load_image_to_array_frame`: a depth slice other than the
written one is untouched. -/
theorem load_image_to_array_frame_witness :
    load_image_to_array (fun x y => x + y) (fun _ _ _ => 5) 0 true 2 3 1 = 5 :=
  (load_image_to_array_frame (fun x y => x + y) (fun _ _ _ => 5) 0 true).1 2 3 1
    (by decide)

/-- C9: the batch size constant equals the chunk grid's Z extent — both are
`CHUNK_SIZE = 16`, every scale's chunk shape being
`(CHUNK_SIZE*8, CHUNK_SIZE*8, CHUNK_SIZE)` — so every depth index of batch
`i`'s written range `[i*CHUNK_SIZE, i*CHUNK_SIZE + len_i)` lies in Z chunk
layer `i` (the range begins on a chunk boundary and no two batches touch the
same Z chunk layer), and every batch except possibly the last has exactly
`CHUNK_SIZE` slices, exactly filling its chunk layer. -/
theorem batch_chunk_alignment (files : List (Option ImgShape)) :
    CHUNK_SIZE = 16 ∧
    (∀ (imgSize voxel : V3) (numLevels : Nat),
      ∀ s ∈ create_cloud_volume imgSize voxel numLevels,
        s.chunkSize = V3.mk (CHUNK_SIZE * 8) (CHUNK_SIZE * 8) CHUNK_SIZE) ∧
    (∀ i z, i < (chunks files CHUNK_SIZE).length →
      i * CHUNK_SIZE ≤ z →
      z < i * CHUNK_SIZE + ((chunks files CHUNK_SIZE).getD i []).length →
      z / CHUNK_SIZE = i) ∧
    (∀ i, i + 1 < (chunks files CHUNK_SIZE).length →
      ((chunks files CHUNK_SIZE).getD i []).length = CHUNK_SIZE) := by
  refine ⟨rfl, ?_, ?_, fun i h => chunks_getD_length files i h⟩
  · intro imgSize voxel numLevels s hs
    exact (create_cloud_volume_shared imgSize voxel numLevels s hs).1
  · intro i z hi hlo hhi
    have hlen : ((chunks files CHUNK_SIZE).getD i []).length ≤ CHUNK_SIZE := by
      rw [chunks_getD files CHUNK_SIZE i hi]
      simp only [List.length_take]
      exact Nat.min_le_left _ _
    simp only [CHUNK_SIZE] at hlo hhi hlen ⊢
    omega

/-- Witness for `batch_chunk_alignment`: 20 files, depth 17 lies in chunk
layer 1, and the first batch has exactly 16 slices. -/
theorem batch_chunk_alignment_witness :
    (17 : Nat) / CHUNK_SIZE = 1 ∧
    ((chunks (List.replicate 20 (none : Option ImgShape)) CHUNK_SIZE).getD 0 []).length =
      CHUNK_SIZE :=
  ⟨(batch_chunk_alignment (List.replicate 20 none)).2.2.1 1 17
      (by decide) (by decide) (by decide),
    (batch_chunk_alignment (List.replicate 20 none)).2.2.2 0 (by decide)⟩

/-- C10: `load_image` returns the decoded image with all singleton axes
removed (`np.squeeze`), so a file decoding to shape `(X, Y, 1)` or
`(1, X, Y)` is accepted as a 2D `(X, Y)` slice; `get_image_dims` fails —
and `mainRun` then aborts with no schema commit and no write at all —
whenever the first file's squeezed array is not exactly 2-dimensional (its
shape cannot be unpacked into two extents); the returned extents are those
of the transposed first slice, with the file count as Z extent. -/
theorem image_dims_correct (X Y : Nat) (hX : X ≠ 1) (hY : Y ≠ 1)
    (rest : List (Option ImgShape)) :
    load_image [X, Y, 1] true = [Y, X] ∧
    load_image [1, X, Y] true = [Y, X] ∧
    get_image_dims (some [X, Y, 1] :: rest) = some (V3.mk Y X (rest.length + 1)) ∧
    (∀ (shp : ImgShape) (rest2 : List (Option ImgShape)),
      (squeeze shp).length ≠ 2 → get_image_dims (some shp :: rest2) = none) ∧
    (∀ (voxel : V3) (numLevels : Nat) (loadBlock : Nat → Block)
        (files : List (Option ImgShape)),
      get_image_dims files = none →
      (mainRun voxel numLevels loadBlock files).1 = [] ∧
      (mainRun voxel numLevels loadBlock files).2 = some RunError.dimsError) := by
  have hsq1 : squeeze [X, Y, 1] = [X, Y] := by
    simp [squeeze, hX, hY]
  have hsq2 : squeeze [1, X, Y] = [X, Y] := by
    simp [squeeze, hX, hY]
  have h1 : load_image [X, Y, 1] true = [Y, X] := by
    simp [load_image, hsq1]
  refine ⟨h1, by simp [load_image, hsq2], ?_, ?_, ?_⟩
  · show (match load_image [X, Y, 1] true with
      | [x, y] => some (V3.mk x y (some [X, Y, 1] :: rest).length)
      | _ => none) = some (V3.mk Y X (rest.length + 1))
    rw [h1]
    rfl
  · intro shp rest2 hlen
    have h2 : ((squeeze shp).reverse).length ≠ 2 := by
      simpa using hlen
    have hload : load_image shp true = (squeeze shp).reverse := by
      simp [load_image]
    show (match load_image shp true with
      | [x, y] => some (V3.mk x y (some shp :: rest2).length)
      | _ => none) = none
    rw [hload]
    rcases hrev : (squeeze shp).reverse with _ | ⟨a, _ | ⟨b, _ | ⟨c, L⟩⟩⟩
    · rfl
    · rfl
    · exfalso
      rw [hrev] at h2
      simp at h2
    · rfl
  · intro voxel numLevels loadBlock files h
    exact ⟨by simp [mainRun, h], by simp [mainRun, h]⟩

/-- Witness for `image_dims_correct`: a `(3, 4, 1)` decode is accepted and
reported transposed as extents `(4, 3)` with Z extent 1. -/
theorem image_dims_correct_witness :
    load_image [3, 4, 1] true = [4, 3] ∧
    get_image_dims [some [3, 4, 1]] = some (V3.mk 4 3 1) :=
  ⟨(image_dims_correct 3 4 (by decide) (by decide) []).1,
    (image_dims_correct 3 4 (by decide) (by decide) []).2.2.1⟩

end CloudReg
